import Mathlib

/-!
# Verification of the lazyEvaluate repository

Shallow embedding of the deferred-evaluation ("Executor" / "LazyEvaluate")
state machine of the ivalmian/lazyEvaluate repository and proofs about it.

The repository contains four variants of the same design:

* `src/lazyEvaluate.py` — the legacy id-keyed variant (`lazyEvaluate` class):
  thunks stored in a dict keyed by `id(thunk)`, drained by `run`/`runAll`.
* `src/lazyevaluate/lazyEvaluate.py` — the registry variant: `Executor`
  objects (zero-argument `op` thunk, `uid`, `result`, `state`, delete hook)
  stored in a `calls` dict; `run`, `runAll`, `delID`; `del_after_eval` flag.
* `src/src/lazy_evaluate.py` — the hook ("handle") variant: `Executor`
  carries `f`, `args`, `kwargs`, five hook lists, a three-state lifecycle
  (`States.NOT_EVALUATED = 1`, `States.EVALUATED = 2`, `States.MODIFIED = 3`,
  the values produced by `enum.auto()`), and a value setter dispatching on
  the prior state with a defensive `raise` on any other state value.
* `src/src/lazyEvaluate.py` — an earlier copy of the hook variant whose
  `Executor.__init__` defaults `uid` to `id(f)`.

Modelling conventions:

* Side effects are made explicit: an ambient world of type `σ` is threaded
  through every call.  A wrapped Python function with bound arguments
  becomes `β → σ → σ × Except String α` (it may raise; the raised exception
  is carried as a `String`, and side effects performed before raising are
  kept in the returned world).  Hooks observe the executor through a view
  of its plain fields and act on the world: `ExecView α → σ → σ`.
* Python object identity (`id(...)`) becomes an explicitly supplied or
  allocator-generated natural number.
* Python `assert` failures and raised exceptions become `Except.error`
  values; the carried string names the Python exception class.
* The `state` attribute is embedded as a bare `Nat` (the `enum.auto()`
  values 1, 2, 3), so that the defensive `raise` branch of the value
  setter is a genuine reachable branch of the embedding, not something
  excluded by typing.
-/

/-- `States.NOT_EVALUATED` — first `enum.auto()` value. -/
def States.NOT_EVALUATED : Nat := 1

/-- `States.EVALUATED` — second `enum.auto()` value. -/
def States.EVALUATED : Nat := 2

/-- `States.MODIFIED` — third `enum.auto()` value. -/
def States.MODIFIED : Nat := 3

/-- Rendering of a state value inside a Python f-string, e.g.
`{self.state}` prints `States.NOT_EVALUATED`.  Any value outside the enum
would render differently; the placeholder is never reached through the
public interface (claim C10). -/
def stateStr (s : Nat) : String :=
  if s = States.NOT_EVALUATED then "States.NOT_EVALUATED"
  else if s = States.EVALUATED then "States.EVALUATED"
  else if s = States.MODIFIED then "States.MODIFIED"
  else "States.<improper>"

/-- The observable fields of an `Executor` that a hook receives when the
source calls `hook(self)`: the hook can inspect identifier, display name,
state and cached result. -/
structure ExecView (α : Type) where
  uid : Nat
  f_name : String
  state : Nat
  result : Option α
deriving Repr

/-- A hook list is fired in insertion order, each hook called exactly once
with the executor (its view) as sole argument:
`for hook in hooks: hook(self)`. -/
def fireHooks {σ α : Type} (hooks : List (ExecView α → σ → σ)) (v : ExecView α) (w : σ) : σ :=
  hooks.foldl (fun acc h => h v acc) w

/-- The positional-argument container passed to `Executor.__init__`.
`Executor.__init__` asserts `isinstance(args, list)`; `_LazyEvaluate.__call__`
forwards `*args`, which in Python is a `tuple`.  The payload type `β`
bundles the positional and keyword argument values (the `kwargs` container
is always a `dict` on every call path, so its `isinstance(kwargs, dict)`
assert always passes and is not modelled separately). -/
inductive Args (β : Type) where
  | list (payload : β)
  | tuple (payload : β)

/-- The `uid` parameter of `Executor.__init__` in `src/src/lazy_evaluate.py`:
Python `None`, a callable id generator, or a plain (non-callable) value.
The source asserts `uid is None or callable(uid)` and then runs
`self.uid = uid() if uid is not None else id(self)`. -/
inductive UidParam (σ : Type) where
  | pyNone
  | gen (g : σ → σ × Nat)
  | value (n : Nat)

/-- Embedding of the `Executor` class of `src/src/lazy_evaluate.py`
(lines 96-123).  `f` is an `Option` because a Python attribute can hold
`None`; nothing in this variant ever clears it (there is no `dropOp`),
which is what claim C7 is about. -/
structure ExecutorE (β σ α : Type) where
  f : Option (β → σ → σ × Except String α)
  args : β
  uid : Nat
  f_name : String
  result : Option α
  on_init_hooks : List (ExecView α → σ → σ)
  on_eval_hooks : List (ExecView α → σ → σ)
  on_modified_no_eval_hooks : List (ExecView α → σ → σ)
  on_modified_after_eval_hooks : List (ExecView α → σ → σ)
  on_modified_after_mod_hooks : List (ExecView α → σ → σ)
  state : Nat

/-- The view of an executor handed to its hooks. -/
def ExecutorE.view {β σ α : Type} (e : ExecutorE β σ α) : ExecView α :=
  ⟨e.uid, e.f_name, e.state, e.result⟩

/-- `Executor.__init__` of `src/src/lazy_evaluate.py` (lines 96-123).
Assert order follows the source: `callable(f)` (always true here),
`uid is None or callable(uid)`, `isinstance(args, list)`,
`isinstance(kwargs, dict)` (always true), hook-list checks (always true).
Then fields are assigned — `uid()` is called if a generator was supplied,
else `id(self)` (the supplied `selfId`) is used — `state` is set to
`NOT_EVALUATED`, and the `on_init_hooks` are fired with `self`. -/
def ExecutorE.init {β σ α : Type} (selfId : Nat) (f : β → σ → σ × Except String α)
    (fname : String) (args : Args β)
    (hInit hEval hMne hMae hMam : List (ExecView α → σ → σ))
    (uidp : UidParam σ) (w : σ) : σ × Except String (ExecutorE β σ α) :=
  match uidp with
  | UidParam.value _ => (w, Except.error "AssertionError")
  | _ =>
    match args with
    | Args.tuple _ => (w, Except.error "AssertionError")
    | Args.list payload =>
      let q : σ × Nat :=
        match uidp with
        | UidParam.gen g => g w
        | _ => (w, selfId)
      let e : ExecutorE β σ α :=
        { f := some f, args := payload, uid := q.2, f_name := fname, result := none,
          on_init_hooks := hInit, on_eval_hooks := hEval,
          on_modified_no_eval_hooks := hMne, on_modified_after_eval_hooks := hMae,
          on_modified_after_mod_hooks := hMam, state := States.NOT_EVALUATED }
      (fireHooks hInit e.view q.1, Except.ok e)

/-- `Executor.__repr__` of `src/src/lazy_evaluate.py` (lines 125-126); the
same f-string is `Executor.__str__` in `src/src/lazyEvaluate.py`
(lines 122-123). -/
def ExecutorE.reprE {β σ α : Type} (e : ExecutorE β σ α) : String :=
  "<Executor for " ++ e.f_name ++ " @ " ++ Nat.repr e.uid ++
    ", current state = " ++ stateStr e.state ++ ">"

/-- `Executor.eval` of `src/src/lazy_evaluate.py` (lines 128-139).
In state `NOT_EVALUATED` it runs `self.result = self.f(*self.args, **self.kwargs)`
(an exception from `f` propagates before any assignment happens, so the
executor is unchanged in that case and the caller keeps the original
object), sets `state = EVALUATED`, then fires every `on_eval` hook with
`self`.  Any other state short-circuits to returning `self.result`
unchanged, firing nothing and not touching `f`.  Note that `f`, `args`
and `kwargs` are retained: this variant has no `dropOp`. -/
def ExecutorE.eval {β σ α : Type} (e : ExecutorE β σ α) (w : σ) :
    σ × Except String (ExecutorE β σ α × Option α) :=
  if e.state = States.NOT_EVALUATED then
    match e.f with
    | none => (w, Except.error "TypeError")
    | some fn =>
      match fn e.args w with
      | (w1, Except.error s) => (w1, Except.error s)
      | (w1, Except.ok v) =>
        let e1 : ExecutorE β σ α := { e with result := some v, state := States.EVALUATED }
        (fireHooks e.on_eval_hooks e1.view w1, Except.ok (e1, some v))
  else (w, Except.ok (e, e.result))

/-- The `value` setter of `src/src/lazy_evaluate.py` (lines 148-176):
`self.result = v` unconditionally, then dispatch on the prior state,
setting `state = MODIFIED` and firing exactly the matching hook list
(`on_modified_no_eval` / `on_modified_after_eval` / `on_modified_after_mod`),
with a defensive `raise Exception(...)` if the state is none of the three
enum values.  Neither `f` nor the `on_eval` hooks are ever touched. -/
def ExecutorE.setValue {β σ α : Type} (e : ExecutorE β σ α) (v : α) (w : σ) :
    Except String (ExecutorE β σ α × σ) :=
  let e1 : ExecutorE β σ α := { e with result := some v }
  if e.state = States.NOT_EVALUATED then
    let e2 : ExecutorE β σ α := { e1 with state := States.MODIFIED }
    Except.ok (e2, fireHooks e.on_modified_no_eval_hooks e2.view w)
  else if e.state = States.EVALUATED then
    let e2 : ExecutorE β σ α := { e1 with state := States.MODIFIED }
    Except.ok (e2, fireHooks e.on_modified_after_eval_hooks e2.view w)
  else if e.state = States.MODIFIED then
    let e2 : ExecutorE β σ α := { e1 with state := States.MODIFIED }
    Except.ok (e2, fireHooks e.on_modified_after_mod_hooks e2.view w)
  else Except.error "Exception: state has improper value"

/-- The executor's `state` holds one of the three `States` enum values. -/
def validState {β σ α : Type} (e : ExecutorE β σ α) : Prop :=
  e.state = States.NOT_EVALUATED ∨ e.state = States.EVALUATED ∨ e.state = States.MODIFIED

/-- Concrete executor used to witness claim C2: the wrapped operation
increments a world counter and doubles its bound argument; one `on_eval`
hook adds 100 to the world. -/
def c2exec : ExecutorE Nat Nat Nat :=
  { f := some (fun a w => (w + 1, Except.ok (a * 2))), args := 21, uid := 7, f_name := "dbl",
    result := none, on_init_hooks := [], on_eval_hooks := [fun _ w => w + 100],
    on_modified_no_eval_hooks := [], on_modified_after_eval_hooks := [],
    on_modified_after_mod_hooks := [], state := States.NOT_EVALUATED }

/-- Concrete executor used to witness claim C3: it sits in state
`EVALUATED` with a cached 10; each hook list bumps the world by a
distinct amount so the fired list is observable. -/
def c3exec : ExecutorE Nat Nat Nat :=
  { f := some (fun a w => (w + 1, Except.ok a)), args := 10, uid := 3, f_name := "ten",
    result := some 10, on_init_hooks := [], on_eval_hooks := [fun _ w => w + 1000],
    on_modified_no_eval_hooks := [fun _ w => w + 10],
    on_modified_after_eval_hooks := [fun _ w => w + 20],
    on_modified_after_mod_hooks := [fun _ w => w + 30], state := States.EVALUATED }

/-- Concrete executor used to witness claim C4: the operation increments
the world counter and raises while the counter was 0, succeeding
afterwards — so the first read fails and the retry succeeds. -/
def c4exec : ExecutorE Nat Nat Nat :=
  { f := some (fun _ w => (w + 1, if w = 0 then Except.error "ZeroDivisionError" else Except.ok 7)),
    args := 0, uid := 11, f_name := "flaky", result := none,
    on_init_hooks := [], on_eval_hooks := [],
    on_modified_no_eval_hooks := [], on_modified_after_eval_hooks := [],
    on_modified_after_mod_hooks := [], state := States.NOT_EVALUATED }

/-- Concrete executor used to witness claim C10. -/
def c10exec : ExecutorE Nat Nat Nat :=
  { f := some (fun a w => (w, Except.ok a)), args := 4, uid := 1, f_name := "four",
    result := none, on_init_hooks := [], on_eval_hooks := [],
    on_modified_no_eval_hooks := [], on_modified_after_eval_hooks := [],
    on_modified_after_mod_hooks := [], state := States.NOT_EVALUATED }

/-- Embedding of the `_LazyEvaluate` decorator class of
`src/src/lazy_evaluate.py` (lines 240-259): the wrapped function, the five
hook lists and the optional `uid` generator, all fixed at construction. -/
structure LazyEvalE (β σ α : Type) where
  func : β → σ → σ × Except String α
  fname : String
  on_init_hooks : List (ExecView α → σ → σ)
  on_eval_hooks : List (ExecView α → σ → σ)
  on_modified_no_eval_hooks : List (ExecView α → σ → σ)
  on_modified_after_eval_hooks : List (ExecView α → σ → σ)
  on_modified_after_mod_hooks : List (ExecView α → σ → σ)
  uidGen : Option (σ → σ × Nat)

/-- `_LazyEvaluate.__call__` of `src/src/lazy_evaluate.py` (lines 261-275):
`call_id = None if self.uid is None else self.uid()`, then
`Executor(self.func, args, kwargs, ..., call_id)`.  Two infidelities of the
source are preserved exactly: the positional arguments reach
`Executor.__init__` as the `*args` tuple (`Args.tuple`), and the already
generated `call_id` value — not a callable — is passed where
`Executor.__init__` asserts `uid is None or callable(uid)`.
`selfId` stands for the `id(self)` of the executor being allocated. -/
def LazyEvalE.call {β σ α : Type} (L : LazyEvalE β σ α) (args : β) (selfId : Nat) (w : σ) :
    σ × Except String (ExecutorE β σ α) :=
  match L.uidGen with
  | none =>
    ExecutorE.init selfId L.func L.fname (Args.tuple args)
      L.on_init_hooks L.on_eval_hooks L.on_modified_no_eval_hooks
      L.on_modified_after_eval_hooks L.on_modified_after_mod_hooks UidParam.pyNone w
  | some g =>
    let p := g w
    ExecutorE.init selfId L.func L.fname (Args.tuple args)
      L.on_init_hooks L.on_eval_hooks L.on_modified_no_eval_hooks
      L.on_modified_after_eval_hooks L.on_modified_after_mod_hooks (UidParam.value p.2) p.1

/-- Association-list lookup, modelling Python dict indexing `d[k]`
(keys are the embedded object identities, which are unique). -/
def lookupA {γ : Type} : List (Nat × γ) → Nat → Option γ
  | [], _ => none
  | (k, v) :: t, i => if k = i then some v else lookupA t i

/-- Association-list in-place update, modelling mutation of the object
stored at a given identity. -/
def setA {γ : Type} : List (Nat × γ) → Nat → γ → List (Nat × γ)
  | [], _, _ => []
  | (k, v) :: t, i, x => if k = i then (k, x) :: t else (k, v) :: setA t i x

/-- Removal of a key from a list of keys, modelling Python `del d[k]`
(`d` holds no duplicate keys). -/
def eraseN : List Nat → Nat → List Nat
  | [], _ => []
  | k :: t, i => if k = i then t else k :: eraseN t i

/-- Removal of an entry from an association list (same operation on the
key-value representation). -/
def eraseKeyA {γ : Type} : List (Nat × γ) → Nat → List (Nat × γ)
  | [], _ => []
  | (k, v) :: t, i => if k = i then t else (k, v) :: eraseKeyA t i

/-- Embedding of the `Executor` class of `src/lazyevaluate/lazyEvaluate.py`
(lines 69-131): a zero-argument operation thunk (`op`, an `Option` because
`dropOp` sets it to `None`), the external id `uid`, the memoized `result`,
the `state`, and the display `name`.  The `eval_hook` attribute is not a
field here: for every factory-created executor it is the closure
`lambda: self.delID(call_id)` over the owning factory, and it is embedded
as the registry deletion performed inside `FactoryR.evalRef`. -/
structure ExecutorR (σ α : Type) where
  op : Option (σ → σ × α)
  uid : Nat
  result : Option α
  state : Nat
  name : String

/-- `Executor.__str__` of `src/lazyevaluate/lazyEvaluate.py`
(lines 101-102): `f'Executor for {self.name}, current state = {self.state}'`.
Note that the identifier `uid` does not appear in the string. -/
def ExecutorR.strR {σ α : Type} (e : ExecutorR σ α) : String :=
  "Executor for " ++ e.name ++ ", current state = " ++ stateStr e.state

/-- Embedding of the `_LazyEvaluate` class of
`src/lazyevaluate/lazyEvaluate.py` (lines 158-259).  The `calls` dict is
split into the list of registered identifiers (`callIds`, insertion
order) and an object store `heap` keyed by the same identifiers, because
an `Executor` object can outlive its registry entry (the caller keeps the
handle after `delID`).  `nextId` is the allocator for the `id(op)` object
identities (fresh among live objects, as the spec's design notes
recommend modelling them). -/
structure FactoryR (β σ α : Type) where
  func : β → σ → σ × α
  fname : String
  allow_del : Bool
  callIds : List Nat
  heap : List (Nat × ExecutorR σ α)
  nextId : Nat

/-- `LazyEvaluate`/`_LazyEvaluate.__init__` of
`src/lazyevaluate/lazyEvaluate.py` (lines 134-195): wraps `func` with an
empty `calls` dict and the `del_after_eval`/`allow_del` flag. -/
def FactoryR.wrap {β σ α : Type} (func : β → σ → σ × α) (fname : String)
    (allow_del : Bool) : FactoryR β σ α :=
  { func := func, fname := fname, allow_del := allow_del,
    callIds := [], heap := [], nextId := 0 }

/-- `_LazyEvaluate.__call__` of `src/lazyevaluate/lazyEvaluate.py`
(lines 197-208): builds the thunk `op = lambda: self.func(*args, **kwargs)`,
takes `call_id = id(op)`, stores
`Executor(op, call_id, lambda: self.delID(call_id), name=self.func.__name__)`
in `self.calls[call_id]`, and hands the executor (here: its identity) back. -/
def FactoryR.call {β σ α : Type} (F : FactoryR β σ α) (args : β) : FactoryR β σ α × Nat :=
  let op : σ → σ × α := fun w => F.func args w
  let i := F.nextId
  ({ F with callIds := F.callIds ++ [i],
            heap := F.heap ++ [(i, { op := some op, uid := i, result := none,
                                     state := States.NOT_EVALUATED, name := F.fname })],
            nextId := i + 1 }, i)

/-- `_LazyEvaluate.delID` of `src/lazyevaluate/lazyEvaluate.py`
(lines 210-222): if `allow_del` is set, `del self.calls[call_id]`
(a `KeyError` if the id is not registered); otherwise a no-op. -/
def FactoryR.delID {β σ α : Type} (F : FactoryR β σ α) (i : Nat) :
    Except String (FactoryR β σ α) :=
  if F.allow_del then
    if i ∈ F.callIds then Except.ok { F with callIds := eraseN F.callIds i }
    else Except.error "KeyError"
  else Except.ok F

/-- Reading `.value` on the factory-created `Executor` object stored at
identity `i` — `Executor.eval` of `src/lazyevaluate/lazyEvaluate.py`
(lines 104-114) with the factory-installed `eval_hook`
(`lambda: self.delID(call_id)`) inlined: in state `NOT_EVALUATED` it runs
`self.result = self.op()`, sets `state = EVALUATED`, calls the hook (the
registry deletion), then `dropOp` clears `self.op`; any other state
short-circuits to the cached `result`.  A raised exception is returned as
`Except.error` (the post-raise object state is not needed by any theorem
below). -/
def FactoryR.evalRef {β σ α : Type} (F : FactoryR β σ α) (i : Nat) (w : σ) :
    Except String (FactoryR β σ α × σ × Option α) :=
  match lookupA F.heap i with
  | none => Except.error "dangling reference"
  | some e =>
    if e.state = States.NOT_EVALUATED then
      match e.op with
      | none => Except.error "TypeError"
      | some op =>
        let p := op w
        let e1 : ExecutorR σ α := { e with result := some p.2, state := States.EVALUATED }
        let F1 : FactoryR β σ α := { F with heap := setA F.heap i e1 }
        match F1.delID i with
        | Except.error s => Except.error s
        | Except.ok F2 =>
          Except.ok ({ F2 with heap := setA F2.heap i { e1 with op := none } }, p.1, some p.2)
    else Except.ok (F, w, e.result)

/-- Writing `.value` on the `Executor` object stored at identity `i` —
the value setter of `src/lazyevaluate/lazyEvaluate.py` (lines 126-131):
`self.result = v; self.state = States.MODIFIED; self.dropOp()`.  The
registry is not touched. -/
def FactoryR.setValueRef {β σ α : Type} (F : FactoryR β σ α) (i : Nat) (v : α) :
    FactoryR β σ α :=
  match lookupA F.heap i with
  | none => F
  | some e =>
    let e2 : ExecutorR σ α := { e with result := some v, state := States.MODIFIED, op := none }
    { F with heap := setA F.heap i e2 }

/-- `_LazyEvaluate.run` of `src/lazyevaluate/lazyEvaluate.py`
(lines 238-259): `self.calls[call_id].value` — a registry lookup
(`KeyError` when absent) followed by a `.value` read on the stored
executor. -/
def FactoryR.run {β σ α : Type} (F : FactoryR β σ α) (i : Nat) (w : σ) :
    Except String (FactoryR β σ α × σ × Option α) :=
  if i ∈ F.callIds then F.evalRef i w else Except.error "KeyError"

/-- The sweep inside `_LazyEvaluate.runAll`: the dict comprehension
`{k: f.value for k, f in list(self.calls.items())}` iterating over the
materialized snapshot of registered ids, evaluating each stored object in
order through its reference (not through a fresh registry lookup). -/
def runAllGo {β σ α : Type} :
    FactoryR β σ α → σ → List Nat → Except String (FactoryR β σ α × σ × List (Nat × Option α))
  | F, w, [] => Except.ok (F, w, [])
  | F, w, i :: rest =>
    match F.evalRef i w with
    | Except.error s => Except.error s
    | Except.ok (F1, w1, v) =>
      match runAllGo F1 w1 rest with
      | Except.error s => Except.error s
      | Except.ok (F2, w2, vs) => Except.ok (F2, w2, (i, v) :: vs)

/-- `_LazyEvaluate.runAll` of `src/lazyevaluate/lazyEvaluate.py`
(lines 224-236): materializes `list(self.calls.items())` — the snapshot
is `F.callIds` — and evaluates every entry, collecting id ↦ value. -/
def FactoryR.runAll {β σ α : Type} (F : FactoryR β σ α) (w : σ) :
    Except String (FactoryR β σ α × σ × List (Nat × Option α)) :=
  runAllGo F w F.callIds

/-- Embedding of the legacy `lazyEvaluate` class of `src/lazyEvaluate.py`
(lines 3-96): a dict from `id(thunk)` to thunk, with `nextId` the
allocator for the fresh `id(...)` identities of the stored (live)
thunks. -/
structure LegacyLE (β σ α : Type) where
  func : β → σ → σ × α
  calls : List (Nat × (σ → σ × α))
  nextId : Nat

/-- `lazyEvaluate.__call__` of `src/lazyEvaluate.py` (lines 57-64):
`c = lambda: self.func(*args, **kwargs); self.calls[id(c)] = c; return id(c)`. -/
def LegacyLE.call {β σ α : Type} (L : LegacyLE β σ α) (args : β) : LegacyLE β σ α × Nat :=
  let c : σ → σ × α := fun w => L.func args w
  let i := L.nextId
  ({ L with calls := L.calls ++ [(i, c)], nextId := i + 1 }, i)

/-- The dict comprehension `{k: f() for k, f in self.calls.items()}` of the
legacy `runAll`. -/
def legacyRunList {σ α : Type} : List (Nat × (σ → σ × α)) → σ → σ × List (Nat × α)
  | [], w => (w, [])
  | (k, c) :: t, w =>
    let p := c w
    let q := legacyRunList t p.1
    (q.1, (k, p.2) :: q.2)

/-- `lazyEvaluate.runAll` of `src/lazyEvaluate.py` (lines 66-78): runs
every stored thunk and then replaces `self.calls` with a fresh empty
dict. -/
def LegacyLE.runAll {β σ α : Type} (L : LegacyLE β σ α) (w : σ) :
    LegacyLE β σ α × σ × List (Nat × α) :=
  let r := legacyRunList L.calls w
  ({ L with calls := [] }, r.1, r.2)

/-- `lazyEvaluate.run` of `src/lazyEvaluate.py` (lines 80-96):
`ret_val = self.calls[call_id]()` (a `KeyError` when the id is absent)
followed by `del self.calls[call_id]`. -/
def LegacyLE.run {β σ α : Type} (L : LegacyLE β σ α) (i : Nat) (w : σ) :
    Except String (LegacyLE β σ α × σ × α) :=
  match lookupA L.calls i with
  | none => Except.error "KeyError"
  | some c =>
    let p := c w
    Except.ok ({ L with calls := eraseKeyA L.calls i }, p.1, p.2)

/-- `Executor.__init__` of `src/src/lazyEvaluate.py` (lines 93-120).  The
attribute layout is that of `ExecutorE` (the `on_call_hooks` list playing
the `on_init_hooks` slot).  It differs from `src/src/lazy_evaluate.py` in
the `uid` parameter — `Union[None, int, str]`, no callable, so the uid
assert always passes — and in the default identifier:
`self.uid = uid if uid is not None else id(f)`, the identity of the
*wrapped function*, shared by every executor of the same function.
`idF` stands for `id(f)`. -/
def ExecutorS.init {β σ α : Type} (idF : Nat) (f : β → σ → σ × Except String α)
    (fname : String) (args : Args β)
    (hCall hEval hMne hMae hMam : List (ExecView α → σ → σ))
    (uidArg : Option Nat) (w : σ) : σ × Except String (ExecutorE β σ α) :=
  match args with
  | Args.tuple _ => (w, Except.error "AssertionError")
  | Args.list payload =>
    let e : ExecutorE β σ α :=
      { f := some f, args := payload, uid := uidArg.getD idF, f_name := fname, result := none,
        on_init_hooks := hCall, on_eval_hooks := hEval, on_modified_no_eval_hooks := hMne,
        on_modified_after_eval_hooks := hMae, on_modified_after_mod_hooks := hMam,
        state := States.NOT_EVALUATED }
    (fireHooks hCall e.view w, Except.ok e)

/-- Embedding of the `_LazyEvaluate` class of `src/src/lazyEvaluate.py`
(lines 228-263).  `funcId` stands for `id(self.func)`. -/
structure LazyEvalS (β σ α : Type) where
  func : β → σ → σ × Except String α
  fname : String
  funcId : Nat
  on_call_hooks : List (ExecView α → σ → σ)
  on_eval_hooks : List (ExecView α → σ → σ)
  on_modified_no_eval_hooks : List (ExecView α → σ → σ)
  on_modified_after_eval_hooks : List (ExecView α → σ → σ)
  on_modified_after_mod : List (ExecView α → σ → σ)
  uidGen : Option (σ → σ × Nat)

/-- `_LazyEvaluate.__call__` of `src/src/lazyEvaluate.py` (lines 249-263):
`call_id = None if self.uid is None else self.uid()`, then
`Executor(self.func, args, kwargs, ..., call_id)` — with the positional
arguments forwarded as the `*args` tuple. -/
def LazyEvalS.call {β σ α : Type} (L : LazyEvalS β σ α) (args : β) (w : σ) :
    σ × Except String (ExecutorE β σ α) :=
  match L.uidGen with
  | none =>
    ExecutorS.init L.funcId L.func L.fname (Args.tuple args)
      L.on_call_hooks L.on_eval_hooks L.on_modified_no_eval_hooks
      L.on_modified_after_eval_hooks L.on_modified_after_mod none w
  | some g =>
    let p := g w
    ExecutorS.init L.funcId L.func L.fname (Args.tuple args)
      L.on_call_hooks L.on_eval_hooks L.on_modified_no_eval_hooks
      L.on_modified_after_eval_hooks L.on_modified_after_mod (some p.2) p.1

/-- Projection of a `run` result to its observable world and value
(dropping the factory, which contains functions). -/
def runOutcome {β σ α : Type} (r : Except String (FactoryR β σ α × σ × Option α)) :
    Option (σ × Option α) :=
  match r with
  | Except.ok (_, w, v) => some (w, v)
  | Except.error _ => none

/-- Sequencing: run id `i` on the factory state left by a previous run. -/
def runThen {β σ α : Type} (r : Except String (FactoryR β σ α × σ × Option α)) (i : Nat) :
    Except String (FactoryR β σ α × σ × Option α) :=
  match r with
  | Except.ok (F, w, _) => F.run i w
  | Except.error s => Except.error s

/-- Projection of a `run` result to the raised exception, if any. -/
def errOfRun {β σ α : Type} (r : Except String (FactoryR β σ α × σ × Option α)) :
    Option String :=
  match r with
  | Except.error s => some s
  | Except.ok _ => none

/-- Registry factory with the default configuration
(`del_after_eval=True`) holding one deferred call `addForty(5)`
(the operation also bumps a world counter). -/
def c6factory : FactoryR Nat Nat Nat :=
  ((FactoryR.wrap (fun a w => (w + 1, a + 40)) "addForty" true).call 5).1

/-- Registry factory configured with `del_after_eval=False`, holding one
deferred call `addForty(5)`. -/
def c6factoryND : FactoryR Nat Nat Nat :=
  ((FactoryR.wrap (fun a w => (w + 1, a + 40)) "addForty" false).call 5).1

/-- Concrete hook-variant executor used for claim C7. -/
def c7exec : ExecutorE Nat Nat Nat :=
  { f := some (fun a w => (w + 1, Except.ok a)), args := 5, uid := 2, f_name := "five",
    result := none, on_init_hooks := [], on_eval_hooks := [],
    on_modified_no_eval_hooks := [], on_modified_after_eval_hooks := [],
    on_modified_after_mod_hooks := [], state := States.NOT_EVALUATED }

/-- Whether `c7exec` still holds its operation after a successful first
evaluation (`false` if the evaluation did not succeed). -/
def c7opRetained : Bool :=
  match c7exec.eval 0 with
  | (_, Except.ok (e1, _)) => e1.f.isSome
  | _ => false

/-- Whether `c7exec` still holds its operation after a value override
performed while `NOT_EVALUATED`. -/
def c7opRetainedAfterOverride : Bool :=
  match c7exec.setValue 9 0 with
  | Except.ok (e1, _) => e1.f.isSome
  | _ => false

/-- Registry factory (deletion disabled) holding one deferred call
`triple(4)`, used to witness the amended claim C7. -/
def c7factory : FactoryR Nat Nat Nat :=
  ((FactoryR.wrap (fun a w => (w + 2, a * 3)) "triple" false).call 4).1

/-- Registry-variant executor with identifier 1. -/
def c8exA : ExecutorR Nat Nat :=
  { op := none, uid := 1, result := some 5, state := States.EVALUATED, name := "fdiv" }

/-- Registry-variant executor identical to `c8exA` except for its
identifier. -/
def c8exB : ExecutorR Nat Nat :=
  { op := none, uid := 2, result := some 5, state := States.EVALUATED, name := "fdiv" }

/-- Concrete hook-variant executor used to witness the amended claim C8. -/
def c8execE : ExecutorE Nat Nat Nat :=
  { f := some (fun a w => (w + 1, Except.ok (a + 1))), args := 6, uid := 9, f_name := "incr",
    result := none, on_init_hooks := [], on_eval_hooks := [],
    on_modified_no_eval_hooks := [], on_modified_after_eval_hooks := [],
    on_modified_after_mod_hooks := [], state := States.NOT_EVALUATED }

/-- Projection of a `LazyEvalS.call`/`ExecutorS.init` result to the raised
exception, if any. -/
def callErrS {β σ α : Type} (r : σ × Except String (ExecutorE β σ α)) : Option String :=
  match r.2 with
  | Except.error s => some s
  | Except.ok _ => none

/-- Projection of a `LazyEvalS.call`/`ExecutorS.init` result to the
identifier of the produced executor, if any. -/
def uidOfS {β σ α : Type} (r : σ × Except String (ExecutorE β σ α)) : Option Nat :=
  match r.2 with
  | Except.ok e => some e.uid
  | Except.error _ => none

/-- Concrete `src/src/lazyEvaluate.py` factory (no uid generator, no
hooks) wrapping a function whose identity is 500. -/
def c9LS : LazyEvalS Nat Nat Nat :=
  { func := fun a w => (w, Except.ok a), fname := "fdiv", funcId := 500,
    on_call_hooks := [], on_eval_hooks := [], on_modified_no_eval_hooks := [],
    on_modified_after_eval_hooks := [], on_modified_after_mod := [], uidGen := none }

/-- Boolean check that every listed id is registered to a heap object that
is still `NOT_EVALUATED` and still holds its operation (a freshly created,
not yet evaluated, not overridden deferred call). -/
def freshOk {σ α : Type} (heap : List (Nat × ExecutorR σ α)) : List Nat → Bool
  | [] => true
  | i :: t =>
    (match lookupA heap i with
     | some e => (e.state == States.NOT_EVALUATED) && e.op.isSome
     | none => false) && freshOk heap t

/-- The operation held by the heap object registered at id `i`, if any. -/
def opAt {σ α : Type} (heap : List (Nat × ExecutorR σ α)) (i : Nat) :
    Option (σ → σ × α) :=
  match lookupA heap i with
  | some e => e.op
  | none => none

/-- Modelled from the spec (reference function for the `runAll` contract):
sweep the materialized snapshot of outstanding ids in order, invoking each
entry's wrapped operation exactly once — threading its side effects — and
collect the mapping from identifier to the value `f(*a)` it produces.
The branches for unregistered or operation-less entries (unreachable under
`freshOk`) return the empty sweep. -/
def runAllSpec {σ α : Type} (heap : List (Nat × ExecutorR σ α)) :
    σ → List Nat → σ × List (Nat × Option α)
  | w, [] => (w, [])
  | w, i :: rest =>
    (opAt heap i).elim (w, [])
      (fun op => ((runAllSpec heap (op w).1 rest).1,
        (i, some (op w).2) :: (runAllSpec heap (op w).1 rest).2))

/-- Projection of a `runAll` result to the observable registry keys,
world and value mapping. -/
def runAllOutcome {β σ α : Type}
    (r : Except String (FactoryR β σ α × σ × List (Nat × Option α))) :
    Option (List Nat × σ × List (Nat × Option α)) :=
  match r with
  | Except.ok (F1, w, vs) => some (F1.callIds, w, vs)
  | Except.error _ => none

/-- Registry factory (default `del_after_eval=True`) with one deferred
call `dbl(5)`. -/
def c5factory : FactoryR Nat Nat Nat :=
  ((FactoryR.wrap (fun a w => (w + 1, a * 2)) "dbl" true).call 5).1

/-- `c5factory` after its only call's value was overridden to 99 while
still registered. -/
def c5overridden : FactoryR Nat Nat Nat := c5factory.setValueRef 0 99

/-- Registry factory (deletion enabled) holding the three deferred calls
`tens(1)`, `tens(2)`, `tens(3)` — mirroring the three-call scenario of
the repository's tests. -/
def c5wFactory : FactoryR Nat Nat Nat :=
  ((((FactoryR.wrap (fun a w => (w + 1, a * 10)) "tens" true).call 1).1.call 2).1.call 3).1

/-- Claim C2: on an `Executor` in state `NOT_EVALUATED` whose operation
returns normally, the first read invokes `f` exactly once with its bound
arguments (the world passes through `f` once), caches and returns the
produced value, and fires each `on_eval` hook once, in order, passing the
executor; any subsequent read returns the cached result unchanged, fires
no hooks and leaves the world — hence any side-effect counter inside `f` —
untouched. -/
theorem c2_eval_memoizes {β σ α : Type} (e : ExecutorE β σ α)
    (fn : β → σ → σ × Except String α) (w w1 : σ) (v : α)
    (hs : e.state = States.NOT_EVALUATED) (hfn : e.f = some fn)
    (hv : fn e.args w = (w1, Except.ok v)) :
    e.eval w = (fireHooks e.on_eval_hooks
        (ExecutorE.view { e with result := some v, state := States.EVALUATED }) w1,
      Except.ok ({ e with result := some v, state := States.EVALUATED }, some v))
    ∧ ∀ w2 : σ, ExecutorE.eval { e with result := some v, state := States.EVALUATED } w2
        = (w2, Except.ok ({ e with result := some v, state := States.EVALUATED }, some v)) := by
  constructor
  · simp only [ExecutorE.eval, hs, hfn, hv, if_pos]
  · intro w2
    unfold ExecutorE.eval
    simp [States.EVALUATED, States.NOT_EVALUATED]

/-- Witness for claim C2 at a concrete input: first read of `c2exec` from
world 0 runs the operation once (world 0 → 1) and the single hook once
(world 1 → 101) and yields 42; a second read from any world returns the
cached 42 with the world unchanged. -/
theorem c2_eval_memoizes_witness :
    c2exec.state = States.NOT_EVALUATED
    ∧ c2exec.f = some (fun a w => (w + 1, Except.ok (a * 2)))
    ∧ (fun (a : Nat) (w : Nat) => (w + 1, (Except.ok (a * 2) : Except String Nat))) c2exec.args 0
        = (1, Except.ok 42)
    ∧ (c2exec.eval 0 = (fireHooks c2exec.on_eval_hooks
          (ExecutorE.view { c2exec with result := some 42, state := States.EVALUATED }) 1,
        Except.ok ({ c2exec with result := some 42, state := States.EVALUATED }, some 42))
      ∧ ∀ w2 : Nat, ExecutorE.eval { c2exec with result := some 42, state := States.EVALUATED } w2
          = (w2, Except.ok ({ c2exec with result := some 42, state := States.EVALUATED }, some 42))) :=
  ⟨rfl, rfl, rfl, c2_eval_memoizes c2exec _ 0 1 42 rfl rfl rfl⟩

/-- Claim C3: assigning to `value` unconditionally caches the supplied
value, transitions the state to `MODIFIED`, leaves the wrapped operation
untouched (the returned executor keeps `f` and the world is transformed
only by the selected modification hook list — never by `f` or the
`on_eval` hooks), and fires exactly the hook list matching the prior
state. -/
theorem c3_setValue_dispatch {β σ α : Type} (e : ExecutorE β σ α) (v : α) (w : σ)
    (h : validState e) :
    e.setValue v w = Except.ok ({ e with result := some v, state := States.MODIFIED },
      fireHooks (if e.state = States.NOT_EVALUATED then e.on_modified_no_eval_hooks
                 else if e.state = States.EVALUATED then e.on_modified_after_eval_hooks
                 else e.on_modified_after_mod_hooks)
        (ExecutorE.view { e with result := some v, state := States.MODIFIED }) w) := by
  rcases h with h | h | h <;>
    · unfold ExecutorE.setValue
      simp [h, States.NOT_EVALUATED, States.EVALUATED, States.MODIFIED]

/-- Witness for claim C3 at a concrete input: overriding the value of the
`EVALUATED` executor `c3exec` caches 99, moves it to `MODIFIED`, and fires
exactly the `on_modified_after_eval` hook list. -/
theorem c3_setValue_dispatch_witness :
    validState c3exec
    ∧ c3exec.setValue 99 0 = Except.ok ({ c3exec with result := some 99, state := States.MODIFIED },
        fireHooks (if c3exec.state = States.NOT_EVALUATED then c3exec.on_modified_no_eval_hooks
                   else if c3exec.state = States.EVALUATED then c3exec.on_modified_after_eval_hooks
                   else c3exec.on_modified_after_mod_hooks)
          (ExecutorE.view { c3exec with result := some 99, state := States.MODIFIED }) 0) :=
  ⟨Or.inr (Or.inl rfl), c3_setValue_dispatch c3exec 99 0 (Or.inr (Or.inl rfl))⟩

/-- Claim C4: if the wrapped function raises during `eval`, the exception
propagates unchanged (together with any side effects `f` performed before
raising), nothing is cached and the executor object is not modified — the
caller still holds it in state `NOT_EVALUATED` — so a subsequent read
re-invokes the function and can succeed (second conjunct). -/
theorem c4_eval_error_propagates {β σ α : Type} (e : ExecutorE β σ α)
    (fn : β → σ → σ × Except String α) (w w1 : σ) (err : String)
    (hs : e.state = States.NOT_EVALUATED) (hfn : e.f = some fn)
    (hv : fn e.args w = (w1, Except.error err)) :
    e.eval w = (w1, Except.error err)
    ∧ ∀ (w2 w3 : σ) (v : α), fn e.args w2 = (w3, Except.ok v) →
        e.eval w2 = (fireHooks e.on_eval_hooks
            (ExecutorE.view { e with result := some v, state := States.EVALUATED }) w3,
          Except.ok ({ e with result := some v, state := States.EVALUATED }, some v)) := by
  constructor
  · simp only [ExecutorE.eval, hs, hfn, hv, if_pos]
  · intro w2 w3 v hv2
    simp only [ExecutorE.eval, hs, hfn, hv2, if_pos]

/-- Witness for claim C4 at a concrete input: the first read of `c4exec`
from world 0 propagates the `ZeroDivisionError` (the counter still
advanced to 1), and a retry from world 1 re-invokes the function and
returns 7. -/
theorem c4_eval_error_propagates_witness :
    c4exec.state = States.NOT_EVALUATED
    ∧ (fun (_ : Nat) (w : Nat) =>
        (w + 1, if w = 0 then (Except.error "ZeroDivisionError" : Except String Nat)
                else Except.ok 7)) c4exec.args 0 = (1, Except.error "ZeroDivisionError")
    ∧ (c4exec.eval 0 = (1, Except.error "ZeroDivisionError")
      ∧ ∀ (w2 w3 : Nat) (v : Nat),
          (fun (_ : Nat) (w : Nat) =>
            (w + 1, if w = 0 then (Except.error "ZeroDivisionError" : Except String Nat)
                    else Except.ok 7)) c4exec.args w2 = (w3, Except.ok v) →
          c4exec.eval w2 = (fireHooks c4exec.on_eval_hooks
              (ExecutorE.view { c4exec with result := some v, state := States.EVALUATED }) w3,
            Except.ok ({ c4exec with result := some v, state := States.EVALUATED }, some v))) :=
  ⟨rfl, rfl, c4_eval_error_propagates c4exec _ 0 1 "ZeroDivisionError" rfl rfl rfl⟩

/-- Claim C10: every operation of the public interface keeps the `state`
attribute equal to one of the three `States` enum values, so the defensive
`raise` branch at the end of the value setter's dispatch is unreachable:
on a valid executor the setter always returns normally with a valid
executor, a successful `eval` returns a valid executor, and construction
always produces a valid executor. -/
theorem c10_state_always_valid {β σ α : Type} (e : ExecutorE β σ α) (v : α) (w : σ)
    (h : validState e) :
    (∃ e2 w2, e.setValue v w = Except.ok (e2, w2) ∧ validState e2)
    ∧ (∀ (w2 w3 : σ) (e2 : ExecutorE β σ α) (r : Option α),
        e.eval w2 = (w3, Except.ok (e2, r)) → validState e2)
    ∧ (∀ (selfId : Nat) (f : β → σ → σ × Except String α) (fname : String) (args : Args β)
        (hI hE hM1 hM2 hM3 : List (ExecView α → σ → σ)) (uidp : UidParam σ) (w4 w5 : σ)
        (e0 : ExecutorE β σ α),
        ExecutorE.init selfId f fname args hI hE hM1 hM2 hM3 uidp w4 = (w5, Except.ok e0) →
          validState e0) := by
  refine ⟨?_, ?_, ?_⟩
  · refine ⟨{ e with result := some v, state := States.MODIFIED },
      fireHooks (if e.state = States.NOT_EVALUATED then e.on_modified_no_eval_hooks
                 else if e.state = States.EVALUATED then e.on_modified_after_eval_hooks
                 else e.on_modified_after_mod_hooks)
        (ExecutorE.view { e with result := some v, state := States.MODIFIED }) w,
      ?_, Or.inr (Or.inr rfl)⟩
    rcases h with h | h | h <;>
      · unfold ExecutorE.setValue
        simp [h, States.NOT_EVALUATED, States.EVALUATED, States.MODIFIED]
  · intro w2 w3 e2 r heq
    unfold ExecutorE.eval at heq
    by_cases hst : e.state = States.NOT_EVALUATED
    · rw [if_pos hst] at heq
      cases hfo : e.f with
      | none => simp only [hfo] at heq; simp at heq
      | some fn =>
        rcases hp : fn e.args w2 with ⟨w4, r4⟩
        cases r4 with
        | error s => simp only [hfo, hp] at heq; simp at heq
        | ok v2 =>
          simp only [hfo, hp, Prod.mk.injEq, Except.ok.injEq] at heq
          obtain ⟨-, h2, -⟩ := heq
          subst h2
          exact Or.inr (Or.inl rfl)
    · rw [if_neg hst] at heq
      simp only [Prod.mk.injEq, Except.ok.injEq] at heq
      obtain ⟨-, h2, -⟩ := heq
      subst h2
      exact h
  · intro selfId f fname args hI hE hM1 hM2 hM3 uidp w4 w5 e0 heq
    unfold ExecutorE.init at heq
    cases uidp with
    | value n => simp at heq
    | pyNone =>
      cases args with
      | tuple p => simp at heq
      | list p =>
        simp only [Prod.mk.injEq, Except.ok.injEq] at heq
        obtain ⟨-, h2⟩ := heq
        subst h2
        exact Or.inl rfl
    | gen g =>
      cases args with
      | tuple p => simp at heq
      | list p =>
        simp only [Prod.mk.injEq, Except.ok.injEq] at heq
        obtain ⟨-, h2⟩ := heq
        subst h2
        exact Or.inl rfl

/-- Witness for claim C10 at a concrete input. -/
theorem c10_state_always_valid_witness :
    validState c10exec
    ∧ ((∃ e2 w2, c10exec.setValue 5 0 = Except.ok (e2, w2) ∧ validState e2)
      ∧ (∀ (w2 w3 : Nat) (e2 : ExecutorE Nat Nat Nat) (r : Option Nat),
          c10exec.eval w2 = (w3, Except.ok (e2, r)) → validState e2)
      ∧ (∀ (selfId : Nat) (f : Nat → Nat → Nat × Except String Nat) (fname : String)
          (args : Args Nat) (hI hE hM1 hM2 hM3 : List (ExecView Nat → Nat → Nat))
          (uidp : UidParam Nat) (w4 w5 : Nat) (e0 : ExecutorE Nat Nat Nat),
          ExecutorE.init selfId f fname args hI hE hM1 hM2 hM3 uidp w4 = (w5, Except.ok e0) →
            validState e0)) :=
  ⟨Or.inl rfl, c10_state_always_valid c10exec 5 0 (Or.inl rfl)⟩

/-- Claim C1 (code bug): `_LazyEvaluate.__call__` never returns an
`Executor`.  Every invocation, for every wrapped function, argument tuple
and configuration, raises `AssertionError` inside `Executor.__init__`:
`__call__` forwards the positional arguments as the `*args` tuple while
`__init__` asserts `isinstance(args, list)`, and when a `uid` generator is
configured `__call__` passes the generated id value where `__init__`
asserts `uid is None or callable(uid)`.  The wrapped function is indeed
never invoked, but no `DeferredCall` is ever produced either. -/
theorem c1_factory_call_always_raises {β σ α : Type} (L : LazyEvalE β σ α)
    (args : β) (selfId : Nat) (w : σ) :
    (L.call args selfId w).2 = Except.error "AssertionError" := by
  unfold LazyEvalE.call
  cases L.uidGen with
  | none => rfl
  | some g => rfl

theorem lookupA_setA_self {γ : Type} (h : List (Nat × γ)) (i : Nat) (x : γ)
    (he : (lookupA h i).isSome = true) : lookupA (setA h i x) i = some x := by
  induction h with
  | nil => simp [lookupA] at he
  | cons p t ih =>
    obtain ⟨k, v⟩ := p
    by_cases hk : k = i
    · subst hk
      simp [lookupA, setA]
    · simp only [lookupA, setA, if_neg hk] at he ⊢
      exact ih he

theorem lookupA_setA_ne {γ : Type} (h : List (Nat × γ)) (i j : Nat) (x : γ)
    (hne : j ≠ i) : lookupA (setA h i x) j = lookupA h j := by
  induction h with
  | nil => simp [lookupA, setA]
  | cons p t ih =>
    obtain ⟨k, v⟩ := p
    by_cases hk : k = i
    · subst hk
      have hkj : ¬ k = j := fun hh => hne (hh ▸ rfl)
      simp only [setA, if_pos rfl, lookupA, if_neg hkj]
    · simp only [setA, if_neg hk, lookupA]
      by_cases hkj : k = j
      · rw [if_pos hkj, if_pos hkj]
      · rw [if_neg hkj, if_neg hkj]
        exact ih

theorem setA_setA {γ : Type} (h : List (Nat × γ)) (i : Nat) (x y : γ) :
    setA (setA h i x) i y = setA h i y := by
  induction h with
  | nil => simp [setA]
  | cons p t ih =>
    obtain ⟨k, v⟩ := p
    by_cases hk : k = i
    · subst hk
      simp [setA]
    · simp only [setA, if_neg hk]
      rw [ih]

theorem mem_eraseN_of_ne {l : List Nat} {a i : Nat} (hne : a ≠ i) :
    a ∈ eraseN l i ↔ a ∈ l := by
  induction l with
  | nil => simp [eraseN]
  | cons k t ih =>
    by_cases hk : k = i
    · subst hk
      simp only [eraseN, if_pos rfl, List.mem_cons]
      exact ⟨fun hm => Or.inr hm, fun hm => hm.elim (fun hh => absurd hh hne) id⟩
    · simp only [eraseN, if_neg hk, List.mem_cons]
      exact or_congr Iff.rfl ih

theorem not_mem_eraseN_self {l : List Nat} (hnd : l.Nodup) (i : Nat) :
    i ∉ eraseN l i := by
  induction l with
  | nil => simp [eraseN]
  | cons k t ih =>
    rcases List.nodup_cons.mp hnd with ⟨hk, ht⟩
    by_cases hki : k = i
    · subst hki
      simpa [eraseN] using hk
    · simp only [eraseN, if_neg hki, List.mem_cons]
      push_neg
      exact ⟨fun hh => hki hh.symm, ih ht⟩

theorem nodup_eraseN {l : List Nat} (hnd : l.Nodup) (i : Nat) : (eraseN l i).Nodup := by
  induction l with
  | nil => simp [eraseN]
  | cons k t ih =>
    rcases List.nodup_cons.mp hnd with ⟨hk, ht⟩
    by_cases hki : k = i
    · subst hki
      simpa [eraseN] using ht
    · simp only [eraseN, if_neg hki]
      refine List.nodup_cons.mpr ⟨?_, ih ht⟩
      intro hmem
      by_cases hki2 : k = i
      · exact hki hki2
      · exact hk ((mem_eraseN_of_ne hki2).mp hmem)

theorem foldl_eraseN_self (l : List Nat) (hnd : l.Nodup) :
    List.foldl eraseN l l = [] := by
  induction l with
  | nil => rfl
  | cons k t ih =>
    rcases List.nodup_cons.mp hnd with ⟨-, ht⟩
    have hstep : eraseN (k :: t) k = t := by simp [eraseN]
    calc List.foldl eraseN (k :: t) (k :: t)
        = List.foldl eraseN (eraseN (k :: t) k) t := rfl
      _ = List.foldl eraseN t t := by rw [hstep]
      _ = [] := ih ht

theorem evalRef_fresh_del {β σ α : Type} (F : FactoryR β σ α) (i : Nat) (w : σ)
    (e : ExecutorR σ α) (op : σ → σ × α)
    (he : lookupA F.heap i = some e) (hs : e.state = States.NOT_EVALUATED)
    (hop : e.op = some op) (hdel : F.allow_del = true) (hmem : i ∈ F.callIds) :
    F.evalRef i w = Except.ok
      ({ F with callIds := eraseN F.callIds i,
                heap := setA F.heap i
                  { e with op := none, result := some (op w).2, state := States.EVALUATED } },
        (op w).1, some (op w).2) := by
  unfold FactoryR.evalRef FactoryR.delID
  simp only [he, hs, hop, if_pos rfl, hdel, if_pos hmem, if_true, setA_setA]

theorem evalRef_fresh_nodel {β σ α : Type} (F : FactoryR β σ α) (i : Nat) (w : σ)
    (e : ExecutorR σ α) (op : σ → σ × α)
    (he : lookupA F.heap i = some e) (hs : e.state = States.NOT_EVALUATED)
    (hop : e.op = some op) (hdel : F.allow_del = false) :
    F.evalRef i w = Except.ok
      ({ F with heap := setA F.heap i
                  { e with op := none, result := some (op w).2, state := States.EVALUATED } },
        (op w).1, some (op w).2) := by
  unfold FactoryR.evalRef FactoryR.delID
  simp only [he, hs, hop, if_pos rfl, hdel, Bool.false_eq_true, if_false, if_true, setA_setA]

theorem evalRef_cached {β σ α : Type} (F : FactoryR β σ α) (i : Nat) (w : σ)
    (e : ExecutorR σ α) (he : lookupA F.heap i = some e)
    (hs : ¬ e.state = States.NOT_EVALUATED) :
    F.evalRef i w = Except.ok (F, w, e.result) := by
  unfold FactoryR.evalRef
  simp only [he, if_neg hs]

theorem lookupA_eq_none_of_not_mem {γ : Type} (l : List (Nat × γ)) (i : Nat)
    (h : i ∉ l.map Prod.fst) : lookupA l i = none := by
  induction l with
  | nil => rfl
  | cons p t ih =>
    obtain ⟨k, v⟩ := p
    simp only [List.map_cons, List.mem_cons] at h
    push_neg at h
    obtain ⟨hk, ht⟩ := h
    simp only [lookupA, if_neg (fun hh : k = i => hk hh.symm)]
    exact ih ht

theorem lookupA_eraseKeyA_self {γ : Type} (l : List (Nat × γ)) (i : Nat)
    (hnd : (l.map Prod.fst).Nodup) : lookupA (eraseKeyA l i) i = none := by
  induction l with
  | nil => rfl
  | cons p t ih =>
    obtain ⟨k, v⟩ := p
    simp only [List.map_cons, List.nodup_cons] at hnd
    obtain ⟨hk, ht⟩ := hnd
    by_cases hki : k = i
    · subst hki
      simp only [eraseKeyA, if_pos rfl]
      exact lookupA_eq_none_of_not_mem t k hk
    · simp only [eraseKeyA, if_neg hki, lookupA, if_neg hki]
      exact ih ht

/-- Counterexample to claim C6 as stated: on a registry factory with the
default `del_after_eval=True`, `run(id)` succeeds once (returning 45 and
deleting the entry through the executor's `delID` eval-hook), and a second
`run(id)` does not return the memoized value — it raises `KeyError`. -/
theorem c6_counterexample :
    c6factory.allow_del = true
    ∧ runOutcome (c6factory.run 0 0) = some (1, some 45)
    ∧ errOfRun (runThen (c6factory.run 0 0) 0) = some "KeyError" := by
  refine ⟨rfl, ?_, ?_⟩ <;> rfl

/-- Claim C6 (amended): for a registered, not-yet-evaluated call, if
`del_after_eval` is disabled, `run(id)` twice returns the same memoized
value the second time — same factory, same world (so the wrapped function
is not re-invoked) — whereas with `del_after_eval` enabled (the default)
the first run removes the registry entry and the second run raises
`KeyError`; likewise the legacy `run` of `src/lazyEvaluate.py` (lines
80-96) executes `del self.calls[call_id]` after the first run, so a
second `run` of the same id raises `KeyError` (third conjunct). -/
theorem c6_run_memoized_amended {β σ α : Type} (F : FactoryR β σ α) (i : Nat) (w : σ)
    (e : ExecutorR σ α) (op : σ → σ × α)
    (hmem : i ∈ F.callIds) (he : lookupA F.heap i = some e)
    (hs : e.state = States.NOT_EVALUATED) (hop : e.op = some op) :
    (F.allow_del = false →
      ∃ F1, F.run i w = Except.ok (F1, (op w).1, some (op w).2)
        ∧ F1.run i (op w).1 = Except.ok (F1, (op w).1, some (op w).2))
    ∧ (F.allow_del = true → F.callIds.Nodup →
      ∃ F1, F.run i w = Except.ok (F1, (op w).1, some (op w).2)
        ∧ F1.run i (op w).1 = Except.error "KeyError")
    ∧ (∀ (L : LegacyLE β σ α) (i2 : Nat) (w2 : σ) (c : σ → σ × α),
      (L.calls.map Prod.fst).Nodup → lookupA L.calls i2 = some c →
      ∃ L1, L.run i2 w2 = Except.ok (L1, (c w2).1, (c w2).2)
        ∧ L1.run i2 (c w2).1 = Except.error "KeyError") := by
  refine ⟨?_, ?_, ?_⟩
  · intro hdel
    have h1 : F.run i w = Except.ok
        ({ F with heap := setA F.heap i
                            { e with op := none, result := some (op w).2,
                                     state := States.EVALUATED } },
          (op w).1, some (op w).2) := by
      unfold FactoryR.run
      rw [if_pos hmem]
      exact evalRef_fresh_nodel F i w e op he hs hop hdel
    refine ⟨_, h1, ?_⟩
    unfold FactoryR.run
    rw [if_pos hmem]
    exact evalRef_cached
      ({ F with heap := setA F.heap i
                          { e with op := none, result := some (op w).2,
                                   state := States.EVALUATED } })
      i (op w).1
      ({ e with op := none, result := some (op w).2, state := States.EVALUATED })
      (lookupA_setA_self F.heap i _ (by rw [he]; rfl))
      (by simp [States.EVALUATED, States.NOT_EVALUATED])
  · intro hdel hnd
    have h1 : F.run i w = Except.ok
        ({ F with callIds := eraseN F.callIds i,
                  heap := setA F.heap i
                    { e with op := none, result := some (op w).2, state := States.EVALUATED } },
          (op w).1, some (op w).2) := by
      unfold FactoryR.run
      rw [if_pos hmem]
      exact evalRef_fresh_del F i w e op he hs hop hdel hmem
    refine ⟨_, h1, ?_⟩
    unfold FactoryR.run
    rw [if_neg (not_mem_eraseN_self hnd i)]
  · intro L i2 w2 c hnd hc
    refine ⟨{ L with calls := eraseKeyA L.calls i2 }, ?_, ?_⟩
    · simp only [LegacyLE.run, hc]
    · simp only [LegacyLE.run, lookupA_eraseKeyA_self L.calls i2 hnd]

/-- Witness for the amended claim C6 at a concrete input: with deletion
disabled, the second `run` of id 0 returns the memoized 45 with the world
counter unchanged. -/
theorem c6_run_memoized_amended_witness :
    (0 ∈ c6factoryND.callIds)
    ∧ lookupA c6factoryND.heap 0 = some { op := some (fun w => (w + 1, 45)), uid := 0,
                                          result := none, state := States.NOT_EVALUATED,
                                          name := "addForty" }
    ∧ ((c6factoryND.allow_del = false →
        ∃ F1, c6factoryND.run 0 0 = Except.ok (F1, 1, some 45)
          ∧ F1.run 0 1 = Except.ok (F1, 1, some 45))
      ∧ (c6factoryND.allow_del = true → c6factoryND.callIds.Nodup →
        ∃ F1, c6factoryND.run 0 0 = Except.ok (F1, 1, some 45)
          ∧ F1.run 0 1 = Except.error "KeyError")
      ∧ (∀ (L : LegacyLE Nat Nat Nat) (i2 : Nat) (w2 : Nat) (c : Nat → Nat × Nat),
        (L.calls.map Prod.fst).Nodup → lookupA L.calls i2 = some c →
        ∃ L1, L.run i2 w2 = Except.ok (L1, (c w2).1, (c w2).2)
          ∧ L1.run i2 (c w2).1 = Except.error "KeyError")) :=
  ⟨by decide, rfl, c6_run_memoized_amended c6factoryND 0 0
    { op := some (fun w => (w + 1, 45)), uid := 0, result := none,
      state := States.NOT_EVALUATED, name := "addForty" }
    (fun w => (w + 1, 45)) (by decide) rfl rfl rfl⟩

/-- Counterexample to claim C7 as stated: the `Executor` of
`src/src/lazy_evaluate.py` has no `dropOp` — after a successful first
evaluation, and likewise after a value override performed while still
`NOT_EVALUATED`, it still holds the wrapped operation (`f`, with its
bound `args`/`kwargs`). -/
theorem c7_counterexample : c7opRetained = true ∧ c7opRetainedAfterOverride = true :=
  ⟨rfl, rfl⟩

/-- Claim C7 (amended): only the registry-variant `Executor`
(`src/lazyevaluate/lazyEvaluate.py`) releases its operation: `dropOp`
sets `op = None` after the first successful evaluation and after any
value override, and the cached result alone serves later reads; the
hook-variant `Executor` of `src/src/lazy_evaluate.py` retains `f` (and
its bound arguments) past evaluation. -/
theorem c7_dropOp_amended {β σ α : Type} :
    (∀ (F : FactoryR β σ α) (i : Nat) (w : σ) (e : ExecutorR σ α) (op : σ → σ × α),
      lookupA F.heap i = some e → e.state = States.NOT_EVALUATED → e.op = some op →
      (F.allow_del = false ∨ i ∈ F.callIds) →
      ∃ F1, F.evalRef i w = Except.ok (F1, (op w).1, some (op w).2)
        ∧ lookupA F1.heap i = some { e with op := none, result := some (op w).2,
                                            state := States.EVALUATED })
    ∧ (∀ (F : FactoryR β σ α) (i : Nat) (v : α) (e : ExecutorR σ α),
      lookupA F.heap i = some e →
      lookupA (F.setValueRef i v).heap i
        = some { e with op := none, result := some v, state := States.MODIFIED })
    ∧ (∀ (e : ExecutorE β σ α) (fn : β → σ → σ × Except String α) (w w1 : σ) (v : α),
      e.state = States.NOT_EVALUATED → e.f = some fn → fn e.args w = (w1, Except.ok v) →
      ∃ w2 e1, e.eval w = (w2, Except.ok (e1, some v)) ∧ e1.f = some fn) := by
  refine ⟨?_, ?_, ?_⟩
  · intro F i w e op he hs hop hd
    by_cases hdel : F.allow_del = true
    · have hmem : i ∈ F.callIds := by
        rcases hd with hd | hd
        · rw [hd] at hdel; exact absurd hdel (by decide)
        · exact hd
      exact ⟨_, evalRef_fresh_del F i w e op he hs hop hdel hmem,
        lookupA_setA_self F.heap i _ (by rw [he]; rfl)⟩
    · have hdel2 : F.allow_del = false := by
        revert hdel; cases F.allow_del <;> simp
      exact ⟨_, evalRef_fresh_nodel F i w e op he hs hop hdel2,
        lookupA_setA_self F.heap i _ (by rw [he]; rfl)⟩
  · intro F i v e he
    unfold FactoryR.setValueRef
    simp only [he]
    exact lookupA_setA_self F.heap i _ (by rw [he]; rfl)
  · intro e fn w w1 v hs hfn hv
    refine ⟨fireHooks e.on_eval_hooks
        (ExecutorE.view { e with result := some v, state := States.EVALUATED }) w1,
      { e with result := some v, state := States.EVALUATED }, ?_, hfn⟩
    simp only [ExecutorE.eval, hs, hfn, hv, if_pos]

/-- Witness for the amended claim C7 at a concrete input: evaluating the
registered call drops its operation (`op = none`) while caching 12. -/
theorem c7_dropOp_amended_witness :
    lookupA c7factory.heap 0 = some { op := some (fun w => (w + 2, 12)), uid := 0,
                                      result := none, state := States.NOT_EVALUATED,
                                      name := "triple" }
    ∧ (c7factory.allow_del = false ∨ 0 ∈ c7factory.callIds)
    ∧ ∃ F1, c7factory.evalRef 0 0 = Except.ok (F1, 2, some 12)
        ∧ lookupA F1.heap 0 = some { op := none, uid := 0, result := some 12,
                                     state := States.EVALUATED, name := "triple" } :=
  ⟨rfl, Or.inl rfl,
    c7_dropOp_amended.1 c7factory 0 0
      { op := some (fun w => (w + 2, 12)), uid := 0, result := none,
        state := States.NOT_EVALUATED, name := "triple" }
      (fun w => (w + 2, 12)) rfl rfl rfl (Or.inl rfl)⟩

/-- Counterexample to claim C8 as stated: the registry-variant
`Executor.__str__` (`src/lazyevaluate/lazyEvaluate.py` lines 101-102) does
not expose the identifier — two executors with distinct identifiers
render to the very same string. -/
theorem c8_counterexample :
    c8exA.strR = c8exB.strR ∧ c8exA.uid ≠ c8exB.uid :=
  ⟨rfl, by decide⟩

/-- Claim C8 (amended): the hook-variant representation
(`__repr__` of `src/src/lazy_evaluate.py`, `__str__` of
`src/src/lazyEvaluate.py`) does expose display name, identifier and
current state tag, recomputed at each lifecycle point — `NOT_EVALUATED`
right after construction, `EVALUATED` right after the first successful
read, `MODIFIED` right after an override; the registry-variant `__str__`
exposes only name and state: it is entirely independent of the
identifier. -/
theorem c8_display_amended {β σ α : Type} :
    (∀ (selfId : Nat) (f : β → σ → σ × Except String α) (fname : String) (args : Args β)
        (hI hE hM1 hM2 hM3 : List (ExecView α → σ → σ)) (uidp : UidParam σ) (w w2 : σ)
        (e0 : ExecutorE β σ α),
      ExecutorE.init selfId f fname args hI hE hM1 hM2 hM3 uidp w = (w2, Except.ok e0) →
      e0.reprE = "<Executor for " ++ e0.f_name ++ " @ " ++ Nat.repr e0.uid ++
        ", current state = " ++ "States.NOT_EVALUATED" ++ ">")
    ∧ (∀ (e : ExecutorE β σ α) (fn : β → σ → σ × Except String α) (w w1 : σ) (v : α),
      e.state = States.NOT_EVALUATED → e.f = some fn → fn e.args w = (w1, Except.ok v) →
      ∃ w2 e1, e.eval w = (w2, Except.ok (e1, some v))
        ∧ e1.reprE = "<Executor for " ++ e.f_name ++ " @ " ++ Nat.repr e.uid ++
            ", current state = " ++ "States.EVALUATED" ++ ">")
    ∧ (∀ (e : ExecutorE β σ α) (v : α) (w : σ) (e2 : ExecutorE β σ α) (w2 : σ),
      e.setValue v w = Except.ok (e2, w2) →
      e2.reprE = "<Executor for " ++ e.f_name ++ " @ " ++ Nat.repr e.uid ++
        ", current state = " ++ "States.MODIFIED" ++ ">")
    ∧ (∀ (r1 r2 : ExecutorR σ α), r1.name = r2.name → r1.state = r2.state →
      r1.strR = r2.strR) := by
  refine ⟨?_, ?_, ?_, ?_⟩
  · intro selfId f fname args hI hE hM1 hM2 hM3 uidp w w2 e0 heq
    unfold ExecutorE.init at heq
    cases uidp with
    | value n => simp at heq
    | pyNone =>
      cases args with
      | tuple p => simp at heq
      | list p =>
        simp only [Prod.mk.injEq, Except.ok.injEq] at heq
        obtain ⟨-, h2⟩ := heq
        subst h2
        rfl
    | gen g =>
      cases args with
      | tuple p => simp at heq
      | list p =>
        simp only [Prod.mk.injEq, Except.ok.injEq] at heq
        obtain ⟨-, h2⟩ := heq
        subst h2
        rfl
  · intro e fn w w1 v hs hfn hv
    refine ⟨fireHooks e.on_eval_hooks
        (ExecutorE.view { e with result := some v, state := States.EVALUATED }) w1,
      { e with result := some v, state := States.EVALUATED }, ?_, rfl⟩
    simp only [ExecutorE.eval, hs, hfn, hv, if_pos]
  · intro e v w e2 w2 heq
    unfold ExecutorE.setValue at heq
    split at heq
    · simp only [Except.ok.injEq, Prod.mk.injEq] at heq
      obtain ⟨h2, -⟩ := heq
      subst h2
      rfl
    · split at heq
      · simp only [Except.ok.injEq, Prod.mk.injEq] at heq
        obtain ⟨h2, -⟩ := heq
        subst h2
        rfl
      · split at heq
        · simp only [Except.ok.injEq, Prod.mk.injEq] at heq
          obtain ⟨h2, -⟩ := heq
          subst h2
          rfl
        · simp at heq
  · intro r1 r2 hn hs
    unfold ExecutorR.strR
    rw [hn, hs]

/-- Witness for the amended claim C8 at a concrete input: right after the
first successful read the representation of `c8execE` shows the
`EVALUATED` tag together with name and identifier. -/
theorem c8_display_amended_witness :
    c8execE.state = States.NOT_EVALUATED
    ∧ c8execE.f = some (fun a w => (w + 1, Except.ok (a + 1)))
    ∧ (fun (a : Nat) (w : Nat) => (w + 1, (Except.ok (a + 1) : Except String Nat)))
        c8execE.args 0 = (1, Except.ok 7)
    ∧ ∃ w2 e1, c8execE.eval 0 = (w2, Except.ok (e1, some 7))
        ∧ e1.reprE = "<Executor for " ++ c8execE.f_name ++ " @ " ++ Nat.repr c8execE.uid ++
            ", current state = " ++ "States.EVALUATED" ++ ">" :=
  ⟨rfl, rfl, rfl, c8_display_amended.2.1 c8execE _ 0 1 7 rfl rfl rfl⟩

/-- Counterexample to claim C9 as stated: invoking the
`src/src/lazyEvaluate.py` factory does not produce a deferred call at all
— every invocation raises `AssertionError` (the `*args` tuple fails the
`isinstance(args, list)` assert), so invoking it twice cannot produce two
distinct deferred calls. -/
theorem c9_counterexample : callErrS (c9LS.call 5 0) = some "AssertionError" := rfl

/-- Claim C9 (amended): the legacy factory and the registry factory do
produce, on two invocations with identical arguments, two independent
deferred calls with distinct identifiers (fresh object identities) and no
deduplication — both entries are registered side by side.  In
`src/src/lazyEvaluate.py`, however, `__call__` raises before constructing
anything, and `Executor.__init__`'s default identifier is `id(f)`: two
executors built directly for the same function with the default uid share
one identifier. -/
theorem c9_distinct_amended {β σ α : Type} :
    (∀ (L : LegacyLE β σ α) (a : β),
      ((L.call a).1.call a).2 ≠ (L.call a).2
      ∧ ((L.call a).1.call a).1.calls.map Prod.fst
          = L.calls.map Prod.fst ++ [L.nextId, L.nextId + 1])
    ∧ (∀ (F : FactoryR β σ α) (a : β),
      ((F.call a).1.call a).2 ≠ (F.call a).2
      ∧ ((F.call a).1.call a).1.callIds = F.callIds ++ [F.nextId, F.nextId + 1])
    ∧ (∀ (idF : Nat) (f : β → σ → σ × Except String α) (fname : String) (p1 p2 : β)
        (hC hE hM1 hM2 hM3 : List (ExecView α → σ → σ)) (w1 w2 : σ),
      uidOfS (ExecutorS.init idF f fname (Args.list p1) hC hE hM1 hM2 hM3 none w1) = some idF
      ∧ uidOfS (ExecutorS.init idF f fname (Args.list p2) hC hE hM1 hM2 hM3 none w2)
          = some idF) := by
  refine ⟨?_, ?_, ?_⟩
  · intro L a
    constructor
    · show L.nextId + 1 ≠ L.nextId
      exact Nat.succ_ne_self L.nextId
    · show ((L.calls ++ [(L.nextId, fun w => L.func a w)])
          ++ [(L.nextId + 1, fun w => L.func a w)]).map Prod.fst
        = L.calls.map Prod.fst ++ [L.nextId, L.nextId + 1]
      simp
  · intro F a
    constructor
    · show F.nextId + 1 ≠ F.nextId
      exact Nat.succ_ne_self F.nextId
    · show (F.callIds ++ [F.nextId]) ++ [F.nextId + 1] = F.callIds ++ [F.nextId, F.nextId + 1]
      simp
  · intro idF f fname p1 p2 hC hE hM1 hM2 hM3 w1 w2
    exact ⟨rfl, rfl⟩

theorem opAt_eq_some {σ α : Type} {heap : List (Nat × ExecutorR σ α)} {i : Nat}
    {e : ExecutorR σ α} {op : σ → σ × α}
    (he : lookupA heap i = some e) (hop : e.op = some op) : opAt heap i = some op := by
  unfold opAt
  rw [he]
  exact hop

theorem freshOk_cons {σ α : Type} {heap : List (Nat × ExecutorR σ α)} {i : Nat}
    {t : List Nat} (h : freshOk heap (i :: t) = true) :
    (∃ e op, lookupA heap i = some e ∧ e.state = States.NOT_EVALUATED ∧ e.op = some op)
    ∧ freshOk heap t = true := by
  unfold freshOk at h
  rw [Bool.and_eq_true] at h
  obtain ⟨h1, h2⟩ := h
  refine ⟨?_, h2⟩
  cases he : lookupA heap i with
  | none => rw [he] at h1; simp at h1
  | some e =>
    rw [he] at h1
    simp only [Bool.and_eq_true, beq_iff_eq, Option.isSome_iff_exists] at h1
    obtain ⟨hs, op, hop⟩ := h1
    exact ⟨e, op, rfl, hs, hop⟩

theorem freshOk_congr {σ α : Type} (h1 h2 : List (Nat × ExecutorR σ α)) (l : List Nat)
    (hagree : ∀ j ∈ l, lookupA h2 j = lookupA h1 j) (hok : freshOk h1 l = true) :
    freshOk h2 l = true := by
  induction l with
  | nil => rfl
  | cons i t ih =>
    unfold freshOk at hok ⊢
    rw [Bool.and_eq_true] at hok ⊢
    obtain ⟨ha, hb⟩ := hok
    refine ⟨?_, ih (fun j hj => hagree j (List.mem_cons_of_mem i hj)) hb⟩
    rw [hagree i (List.mem_cons_self i t)]
    exact ha

theorem runAllSpec_congr {σ α : Type} (h1 h2 : List (Nat × ExecutorR σ α)) (l : List Nat) :
    ∀ w : σ, (∀ j ∈ l, lookupA h2 j = lookupA h1 j) →
      runAllSpec h2 w l = runAllSpec h1 w l := by
  induction l with
  | nil => intro w _; rfl
  | cons i t ih =>
    intro w hagree
    have ht : ∀ j ∈ t, lookupA h2 j = lookupA h1 j :=
      fun j hj => hagree j (List.mem_cons_of_mem i hj)
    have hOp : opAt h2 i = opAt h1 i := by
      unfold opAt
      rw [hagree i (List.mem_cons_self i t)]
    unfold runAllSpec
    rw [hOp]
    cases hle : opAt h1 i with
    | none => simp only [Option.elim_none]
    | some op =>
      simp only [Option.elim_some]
      rw [ih (op w).1 ht]

theorem runAllSpec_keys {σ α : Type} (heap : List (Nat × ExecutorR σ α)) (l : List Nat) :
    ∀ w : σ, freshOk heap l = true → (runAllSpec heap w l).2.map Prod.fst = l := by
  induction l with
  | nil => intro w _; rfl
  | cons i t ih =>
    intro w hf
    obtain ⟨⟨e, op, he, hs, hop⟩, hft⟩ := freshOk_cons hf
    unfold runAllSpec
    rw [opAt_eq_some he hop]
    simp only [Option.elim_some, List.map_cons]
    rw [ih (op w).1 hft]

/-- Combined form of the two fresh-evaluation lemmas: evaluating a fresh
registered entry caches its value, drops its operation, and removes it
from the registry exactly when `allow_del` is set. -/
theorem evalRef_fresh {β σ α : Type} (F : FactoryR β σ α) (i : Nat) (w : σ)
    (e : ExecutorR σ α) (op : σ → σ × α)
    (he : lookupA F.heap i = some e) (hs : e.state = States.NOT_EVALUATED)
    (hop : e.op = some op) (hmem : i ∈ F.callIds) :
    F.evalRef i w = Except.ok
      ({ F with callIds := (if F.allow_del = true then eraseN F.callIds i else F.callIds),
                heap := setA F.heap i
                  { e with op := none, result := some (op w).2,
                           state := States.EVALUATED } },
        (op w).1, some (op w).2) := by
  by_cases hdel : F.allow_del = true
  · rw [evalRef_fresh_del F i w e op he hs hop hdel hmem, if_pos hdel]
  · have hdel2 : F.allow_del = false := by revert hdel; cases F.allow_del <;> simp
    rw [evalRef_fresh_nodel F i w e op he hs hop hdel2, if_neg hdel]

/-- Main sweep lemma: on a duplicate-free snapshot of registered, fresh
(not yet evaluated) ids, the dict-comprehension sweep succeeds, produces
exactly the reference sweep `runAllSpec` (each operation invoked exactly
once, in snapshot order, with its side effects threaded), removes exactly
the swept ids from the registry when `allow_del` is set (and nothing
otherwise), leaves every other heap object untouched, and leaves every
swept object evaluated with its operation dropped. -/
theorem runAllGo_ok {β σ α : Type} (l : List Nat) :
    ∀ (F : FactoryR β σ α) (w : σ),
      l.Nodup → (∀ i ∈ l, i ∈ F.callIds) → freshOk F.heap l = true →
      ∃ F1, runAllGo F w l = Except.ok (F1, runAllSpec F.heap w l)
        ∧ F1.allow_del = F.allow_del
        ∧ F1.callIds = (if F.allow_del = true then List.foldl eraseN F.callIds l
                        else F.callIds)
        ∧ (∀ j, j ∉ l → lookupA F1.heap j = lookupA F.heap j)
        ∧ (∀ i ∈ l, ∃ e1, lookupA F1.heap i = some e1 ∧ e1.state = States.EVALUATED
            ∧ e1.op = none) := by
  induction l with
  | nil =>
    intro F w _ _ _
    exact ⟨F, rfl, rfl, by split <;> rfl, fun j _ => rfl,
      fun i hi => absurd hi (List.not_mem_nil i)⟩
  | cons i t ih =>
    intro F w hnd hmem hfresh
    obtain ⟨⟨e, op, he, hs, hop⟩, hfresh_t⟩ := freshOk_cons hfresh
    rcases List.nodup_cons.mp hnd with ⟨hit, hndt⟩
    have hmi : i ∈ F.callIds := hmem i (List.mem_cons_self i t)
    have hstep := evalRef_fresh F i w e op he hs hop hmi
    have hagree : ∀ j ∈ t,
        lookupA (setA F.heap i { e with op := none, result := some (op w).2,
                                        state := States.EVALUATED }) j
          = lookupA F.heap j := by
      intro j hj
      exact lookupA_setA_ne F.heap i j _ (fun hh => hit (hh ▸ hj))
    have hmem_t : ∀ j ∈ t,
        j ∈ (if F.allow_del = true then eraseN F.callIds i else F.callIds) := by
      intro j hj
      have hji : j ≠ i := fun hh => hit (hh ▸ hj)
      split
      · exact (mem_eraseN_of_ne hji).mpr (hmem j (List.mem_cons_of_mem i hj))
      · exact hmem j (List.mem_cons_of_mem i hj)
    obtain ⟨F1, hgo, hdel1, hcall1, hheap1, heval1⟩ :=
      ih { F with callIds := (if F.allow_del = true then eraseN F.callIds i
                              else F.callIds),
                  heap := setA F.heap i { e with op := none, result := some (op w).2,
                                                 state := States.EVALUATED } }
        (op w).1 hndt hmem_t
        (freshOk_congr F.heap _ t hagree hfresh_t)
    refine ⟨F1, ?_, hdel1, ?_, ?_, ?_⟩
    · have hspec : runAllSpec
          (setA F.heap i { e with op := none, result := some (op w).2,
                                  state := States.EVALUATED }) (op w).1 t
            = runAllSpec F.heap (op w).1 t :=
        runAllSpec_congr F.heap _ t (op w).1 hagree
      simp only [runAllGo, hstep, hgo, hspec, runAllSpec, opAt_eq_some he hop,
        Option.elim_some]
    · rw [hcall1]
      by_cases hd : F.allow_del = true
      · simp only [hd, if_true, List.foldl_cons]
      · have hd2 : F.allow_del = false := by revert hd; cases F.allow_del <;> simp
        simp [hd2]
    · intro j hj
      have hjt : j ∉ t := fun hh => hj (List.mem_cons_of_mem i hh)
      have hji : j ≠ i := fun hh => hj (hh ▸ List.mem_cons_self i t)
      rw [hheap1 j hjt]
      exact lookupA_setA_ne F.heap i j _ hji
    · intro i2 hi2
      rcases List.mem_cons.mp hi2 with hieq | hit2
      · subst hieq
        refine ⟨{ e with op := none, result := some (op w).2, state := States.EVALUATED },
          ?_, rfl, rfl⟩
        rw [hheap1 i2 hit]
        exact lookupA_setA_self F.heap i2 _ (by rw [he]; rfl)
      · exact heval1 i2 hit2

/-- Counterexample to claim C5 as stated: with delete-after-evaluation
enabled, `runAll()` on a registry holding a value-overridden (`MODIFIED`)
entry leaves the registry non-empty (the deletion hook only fires on the
`NOT_EVALUATED → EVALUATED` transition), and the returned mapping holds
the overridden 99 rather than `dbl(5) = 10`. -/
theorem c5_counterexample :
    c5overridden.allow_del = true
    ∧ runAllOutcome (c5overridden.runAll 0) = some ([0], 0, [(0, some 99)]) :=
  ⟨rfl, rfl⟩

/-- Claim C5 (amended): on a registry whose entries are all still
`NOT_EVALUATED`, `runAll()` succeeds, invokes each outstanding call's
wrapped operation exactly once (the result is exactly the reference sweep
`runAllSpec` over the materialized snapshot, so deletions during the
sweep neither skip nor corrupt entries), returns the mapping from every
identifier to the corresponding `f(*a)`; afterwards the registry is empty
when delete-after-evaluation is enabled and unchanged otherwise, and
every swept entry is `EVALUATED` with its operation dropped.  (An entry
whose value was overridden before the sweep stays registered and yields
its override — see the counterexample.) -/
theorem c5_runAll_amended {β σ α : Type} (F : FactoryR β σ α) (w : σ)
    (hnd : F.callIds.Nodup) (hfresh : freshOk F.heap F.callIds = true) :
    ∃ F1, F.runAll w = Except.ok (F1, runAllSpec F.heap w F.callIds)
      ∧ (runAllSpec F.heap w F.callIds).2.map Prod.fst = F.callIds
      ∧ (F.allow_del = true → F1.callIds = [])
      ∧ (F.allow_del = false → F1.callIds = F.callIds)
      ∧ (∀ i ∈ F.callIds, ∃ e1, lookupA F1.heap i = some e1
          ∧ e1.state = States.EVALUATED ∧ e1.op = none) := by
  obtain ⟨F1, hgo, -, hcall, -, heval⟩ :=
    runAllGo_ok F.callIds F w hnd (fun i hi => hi) hfresh
  refine ⟨F1, hgo, runAllSpec_keys F.heap F.callIds w hfresh, ?_, ?_, heval⟩
  · intro hd
    rw [hcall, if_pos hd]
    exact foldl_eraseN_self F.callIds hnd
  · intro hd
    rw [hcall, if_neg (by rw [hd]; exact Bool.false_ne_true)]

/-- Witness for the amended claim C5 at a concrete input: sweeping the
three fresh calls empties the registry and maps ids 0, 1, 2 to 10, 20,
30. -/
theorem c5_runAll_amended_witness :
    c5wFactory.callIds.Nodup
    ∧ freshOk c5wFactory.heap c5wFactory.callIds = true
    ∧ ∃ F1, c5wFactory.runAll 0
          = Except.ok (F1, runAllSpec c5wFactory.heap 0 c5wFactory.callIds)
        ∧ (runAllSpec c5wFactory.heap 0 c5wFactory.callIds).2.map Prod.fst
            = c5wFactory.callIds
        ∧ (c5wFactory.allow_del = true → F1.callIds = [])
        ∧ (c5wFactory.allow_del = false → F1.callIds = c5wFactory.callIds)
        ∧ (∀ i ∈ c5wFactory.callIds, ∃ e1, lookupA F1.heap i = some e1
            ∧ e1.state = States.EVALUATED ∧ e1.op = none) :=
  ⟨by decide, by decide, c5_runAll_amended c5wFactory 0 (by decide) (by decide)⟩
